import Mathlib

/-!
Verification of the query-construction and result-aggregation layer in
`googleanalytics/query.py`: the immutable query builder, the canonical
signature / cache-key algorithm, the pagination driver, the rate limiter,
the segment/sort/precision builder methods, the execute error taxonomy,
and the `Report.value` accessor.

Python dictionaries are embedded as ordered association lists
(`Raw := List (String × PyVal)`), matching Python's insertion-ordered
`dict`; builder state mutation is made explicit by returning the new
state.
-/

/-- A Python value stored in `Query.raw`: the wire-parameter dictionary
holds strings, integers, lists of strings (metrics/dimensions before
`build`), and `None` (dimensions after `build` when empty). -/
inductive PyVal where
  | pstr (s : String)
  | pint (i : Int)
  | plist (xs : List String)
  | pnone
deriving DecidableEq, Repr

/-- Scalar values: everything except `plist`.  After `Query.build` every
wire parameter is a string, an integer or `None`. -/
def PyVal.isScalar : PyVal → Bool
  | .plist _ => false
  | _ => true

/-- `Query.raw`, Python's insertion-ordered `dict` as an association list. -/
abbrev Raw : Type := List (String × PyVal)

/-- Dictionary lookup `raw[k]` (`None` result models a `KeyError`). -/
def rawGet (k : String) : Raw → Option PyVal
  | [] => none
  | (k', v) :: t => if k = k' then some v else rawGet k t

/-- Dictionary item assignment `raw[k] = v`: overwrite in place when the
key exists (Python keeps the original position), append otherwise. -/
def rawSet (k : String) (v : PyVal) : Raw → Raw
  | [] => [(k, v)]
  | (k', w) :: t => if k = k' then (k, v) :: t else (k', w) :: rawSet k v t

/-- `k in raw`. -/
def rawContains (k : String) (r : Raw) : Bool := (rawGet k r).isSome

/-- Distinctness of keys, the invariant of every Python `dict`. -/
def NodupKeys (r : Raw) : Prop :=
  List.Pairwise (fun a b : String × PyVal => a.1 ≠ b.1) r

instance (r : Raw) : Decidable (NodupKeys r) :=
  inferInstanceAs (Decidable (List.Pairwise _ _))

/-- Python `sep.join(xs)` on a list of strings. -/
def joinS (sep : String) : List String → String
  | [] => ""
  | [x] => x
  | x :: y :: t => x ++ sep ++ joinS sep (y :: t)

/-- `len(v)` for the values `Query.build` inspects (`TypeError` → `none`). -/
def pyLen : PyVal → Option Nat
  | .plist xs => some xs.length
  | .pstr s => some s.length
  | _ => none

/-- Python `','.join(v)`: joining a list of strings joins the elements;
joining a string joins its characters (this is what happens when
`build(copy=False)` has already replaced the list by a string); any
other value is a `TypeError`. -/
def joinVal (sep : String) : PyVal → Option String
  | .plist xs => some (joinS sep xs)
  | .pstr s => some (joinS sep (s.data.map (fun c => String.singleton c)))
  | _ => none

/-- `Query.build` (query.py lines 465-478): join the metrics list into a
comma-separated string, replace an empty dimensions list by `None` and a
non-empty one by its comma-join.  The returned dictionary is the one all
mutations were applied to: with `copy=False` it is `self.raw` itself. -/
def buildRaw (r : Raw) : Option Raw :=
  match rawGet "metrics" r with
  | none => none
  | some mv =>
    match joinVal "," mv with
    | none => none
    | some ms =>
      match rawGet "dimensions" (rawSet "metrics" (.pstr ms) r) with
      | none => none
      | some dv =>
        match pyLen dv with
        | none => none
        | some dl =>
          if dl ≠ 0 then
            match joinVal "," dv with
            | none => none
            | some ds =>
              some (rawSet "dimensions" (.pstr ds) (rawSet "metrics" (.pstr ms) r))
          else some (rawSet "dimensions" .pnone (rawSet "metrics" (.pstr ms) r))

/- ## Cacheability (claim C4) -/

/-- Ten-character `YYYY-MM-DD` shape of an absolute date. -/
def isAbsoluteDate (s : String) : Bool :=
  match s.data with
  | [y1, y2, y3, y4, '-', m1, m2, '-', d1, d2] =>
      [y1, y2, y3, y4, m1, m2, d1, d2].all (fun c => '0' ≤ c && c ≤ '9')
  | _ => false

/-- Modelled from the spec: `utils.date.is_relative` is not under `src/`;
per §4.3 a date is relative when it is a relative expression such as
"today" or "30daysAgo" rather than an absolute `YYYY-MM-DD` date. -/
def is_relative (s : String) : Bool := !isAbsoluteDate s

/-- One half of `Query.cacheable` (query.py lines 480-484):
`k in self.raw and not utils.date.is_relative(self.raw[k])`. -/
def dateOk (k : String) (r : Raw) : Bool :=
  match rawGet k r with
  | some (.pstr s) => !is_relative s
  | _ => false

/-- `Query.cacheable` (query.py lines 480-484). -/
def cacheable (r : Raw) : Bool :=
  dateOk "start_date" r && dateOk "end_date" r

/- ## Shared error type for builder validation errors -/

/-- The Python exceptions raised by the builder methods. -/
inductive Err where
  | valueError (msg : String)
  | indexError (msg : String)
  | keyError (key : String)
  | unboundLocal (msg : String)
deriving DecidableEq, Repr

/- ## Precision (claim C8) -/

/-- `CoreQuery.PRECISION_LEVELS` (query.py line 582). -/
def PRECISION_LEVELS : List String := ["FASTER", "DEFAULT", "HIGHER_PRECISION"]

/-- Python tuple indexing `t[i]`: negative indices count from the end,
anything out of `[-len, len)` raises `IndexError`. -/
def pyTupleGet (l : List String) (i : Int) : Except Err String :=
  let j : Int := if i < 0 then i + l.length else i
  if 0 ≤ j then
    match l[j.toNat]? with
    | some s => .ok s
    | none => .error (.indexError "tuple index out of range")
  else .error (.indexError "tuple index out of range")

/-- The argument of `CoreQuery.precision`: a Python `int` or `str`. -/
inductive PrecisionArg where
  | int (i : Int)
  | str (s : String)

/-- `CoreQuery.precision` (query.py lines 589-619): an integer argument
indexes `PRECISION_LEVELS`; an unrecognized name raises a `ValueError`
enumerating the levels; the result is the `samplingLevel` value to set,
`none` when the level is `DEFAULT` (no wire parameter emitted). -/
def precisionM (p : PrecisionArg) : Except Err (Option String) := do
  let name ← match p with
    | .int i => pyTupleGet PRECISION_LEVELS i
    | .str s => pure s
  if PRECISION_LEVELS.contains name then
    pure (if name ≠ "DEFAULT" then some name else none)
  else
    .error (.valueError ("Precision should be one of: " ++ joinS ", " PRECISION_LEVELS))

/- ## Segments (claim C6) -/

/-- The `SCOPES` dictionary inside `CoreQuery.segment` (query.py lines
866-870); `none` models a `KeyError`. -/
def SCOPES : String → Option String
  | "hits" => some "perHit"
  | "sessions" => some "perSession"
  | "users" => some "perUser"
  | _ => none

/-- Python `'::'.join(filter(None, parts))`: drop `None` and empty
strings, then join with the separator. -/
def joinNonEmpty (sep : String) (parts : List (Option String)) : String :=
  joinS sep ((parts.filterMap id).filter (fun s => s ≠ ""))

/-- The keyword-selection path of `CoreQuery.segment` (query.py lines
871-890).  `conditions` is the output of `select` (one compiled
expression per column/operator/value combination); a missing or empty
`scope` raises the `ValueError` from line 879; a non-empty
`metric_scope` is mapped through `SCOPES` (line 882, a `KeyError` when
unknown); each condition becomes
`'::'.join(filter(None, [scope, 'condition', metric_scope, condition]))`. -/
def segmentKeyword (scope : Option String) (metric_scope : Option String)
    (conditions : List String) : Except Err (List String) :=
  match scope with
  | none => .error (.valueError "Scope is required. Choose from: users, sessions.")
  | some sc =>
    if sc = "" then .error (.valueError "Scope is required. Choose from: users, sessions.")
    else do
      let ms : Option String ← match metric_scope with
        | none => pure none
        | some m =>
          if m = "" then pure none
          else match SCOPES m with
            | some x => pure (some x)
            | none => Except.error (.keyError m)
      pure (conditions.map (fun c =>
        joinNonEmpty "::" [some sc, some "condition", ms, some c]))

/- ## Sorting (claim C7) -/

/-- Modelled from the spec: the Column Registry is an external
collaborator (§1, §6); a column descriptor exposes an `id` and a `name`. -/
structure ColumnM where
  id : String
  name : String
deriving DecidableEq, Repr

/-- ASCII lower-casing of one character (Python `str.lower` on the
ASCII column names the registry holds). -/
def lowerChar (c : Char) : Char :=
  if 'A' ≤ c ∧ c ≤ 'Z' then Char.ofNat (c.toNat + 32) else c

/-- ASCII lower-casing of a string. -/
def lowerStr (s : String) : String := ⟨s.data.map lowerChar⟩

/-- Modelled from the spec: registry lookup `self.api.columns[key]` is a
case-insensitive match on the column name or an exact match on its id
(§6: "lookup by case-insensitive name or id"); `none` models the lookup
failure for an unknown column. -/
def columnsLookup (reg : List ColumnM) (key : String) : Option ColumnM :=
  reg.find? (fun c => lowerStr c.name == lowerStr key || c.id == key)

/-- One argument of `Query.sort`: a resolved `Column` object or a string. -/
inductive SortArg where
  | col (c : ColumnM)
  | str (s : String)

/-- Python `s.lstrip('-')`. -/
def stripDashes (s : String) : String := ⟨s.data.dropWhile (fun c => c = '-')⟩

/-- Python `s.startswith('-')`. -/
def startsWithDash (s : String) : Bool := s.data.head? = some '-'

/-- One iteration of the loop in `Query.sort` (query.py lines 429-443).
The `descending` local is threaded as `Option Bool`: it is only
assigned in the string branch (line 433), so in the `Column` branch the
previous iteration's value is reused, and on the first iteration it is
unbound (`UnboundLocalError` when line 438 reads it). -/
def sortStep (reg : List ColumnM) (descFlag : Bool) (desc : Option Bool) :
    SortArg → Except Err (String × Option Bool)
  | .col c =>
    match desc with
    | none => .error (.unboundLocal "local variable descending referenced before assignment")
    | some d => .ok ((if d then "-" ++ c.id else c.id), desc)
  | .str s =>
    let d := startsWithDash s || descFlag
    match columnsLookup reg (stripDashes s) with
    | none => .error (.keyError s)
    | some c => .ok ((if d then "-" ++ c.id else c.id), some d)

/-- The full loop of `Query.sort` over its arguments, accumulating the
signed identifiers (`sorts.append(sign + identifier)`). -/
def sortFold (reg : List ColumnM) (descFlag : Bool) :
    Option Bool → List SortArg → Except Err (List String)
  | _, [] => .ok []
  | desc, a :: rest => do
    let (entry, desc') ← sortStep reg descFlag desc a
    let tail ← sortFold reg descFlag desc' rest
    pure (entry :: tail)

/-- `Query.sort`'s final wire parameter: `self.raw['sort'] = ",".join(sorts)`
(query.py line 445), starting from an empty pending-sort list. -/
def sortParam (reg : List ColumnM) (descFlag : Bool) (args : List SortArg) :
    Except Err String :=
  (sortFold reg descFlag none args).map (joinS ",")

/- ## Rate limiter (claim C5) -/

/-- `Query._wait` (query.py lines 287-293), with `time.time()` modelled
as an integer tick count passed in as `now` and `time.sleep` as exact.
`lock` is the value of the *instance* attribute `self._lock`: Python
attribute lookup falls back to the class attribute `Query._lock = 0`
(line 272) when the instance attribute was never assigned, and the
assignment `self._lock = time.time()` on line 292 creates the instance
attribute, so the write never reaches the class attribute.  Returns the
sleep duration and the new instance `_lock` value (the time after the
sleep). -/
def waitQ (now : Int) (lock : Option Int) : Int × Int :=
  let elapsed := now - lock.getD 0
  let w := max 0 (1 - elapsed)
  (w, now + w)

/-- Two freshly constructed `Query` instances each execute once,
back-to-back, starting at time `t`: the pair of outbound-call times.
Each instance reads its own (absent) `_lock`, falling back to the class
attribute `0`. -/
def backToBackCalls (t : Int) : Int × Int :=
  let r1 := waitQ t none
  let t1 := t + r1.1
  let r2 := waitQ t1 none
  (t1, t1 + r2.1)

/- ## Execute error taxonomy (claim C9) -/

/-- A Python exception as `Query.execute`'s handler inspects it:
whether it is a `TypeError`, whether it has a `content` attribute, and
its `str(...)` message. -/
structure PyExc where
  isTypeError : Bool
  content : Option String
  msg : String
deriving DecidableEq, Repr

/-- The outcome of the `except` block in `Query.execute` (query.py lines
502-521).  `invalidRequest` models `errors.InvalidRequestError` (an
`errors` class not under `src/`), whose message is built by
`utils.format` from `str(err)` and the full `self.raw` parameter dump;
it is embedded structurally as the pair of the original message and the
dumped parameters.  `gaError` models `errors.GoogleAnalyticsError(str(err))`. -/
inductive ExecErr where
  | invalidRequest (message : String) (parameters : Raw)
  | gaError (message : String)
  | reraised (e : PyExc)

/-- The `except Exception as err` handler of `Query.execute` (query.py
lines 502-521): a `TypeError` is enriched with the full parameter dump
and re-raised as an invalid-request error; an exception with a
`content` attribute is re-raised as a service error carrying its
message; anything else propagates unchanged. -/
def handleExecError (raw : Raw) (e : PyExc) : ExecErr :=
  if e.isTypeError then .invalidRequest e.msg raw
  else
    match e.content with
    | some _ => .gaError e.msg
    | none => .reraised e

/-- The network portion of a non-cached `Query.execute`: the transport
either returns a response or raises, and a raised exception is mapped
through `handleExecError`. -/
def executeNet {α : Type} (raw : Raw) (fetch : Except PyExc α) : Except ExecErr α :=
  match fetch with
  | .ok r => .ok r
  | .error e => .error (handleExecError raw e)

/- ## Report.value (claim C10) -/

/-- The parts of a `Report` that `value`/`values`/`__getitem__` read:
the ordered header identifiers, the accumulated set of metric
identifiers, and the typed rows (one list of `α` per row, in header
order). -/
structure ReportM (α : Type) where
  headers : List String
  metrics : List String
  rows : List (List α)

/-- `[row[i] for row in rows]`: index every row, `none` when some row is
too short (an `IndexError` in Python). -/
def colAt {α : Type} (i : Nat) : List (List α) → Option (List α)
  | [] => some []
  | row :: t =>
    match row[i]? with
    | some v => (colAt i t).map (fun vs => v :: vs)
    | none => none

/-- `Report.__getitem__` (query.py lines 190-197): resolve the key
against the headers, then collect that column across all rows; an
unresolvable key raises `ValueError(key + " not in column headers")`. -/
def reportCol {α : Type} (r : ReportM α) (key : String) : Except String (List α) :=
  match r.headers.indexOf? key with
  | some i =>
    match colAt i r.rows with
    | some vs => .ok vs
    | none => .error "IndexError"
  | none => .error (key ++ " not in column headers")

/-- `Report.values` (query.py lines 132-139): requires exactly one
accumulated metric, then returns that metric's column. -/
def reportValues {α : Type} (r : ReportM α) : Except String (List α) :=
  match r.metrics with
  | [m] => reportCol r m
  | _ => .error "This report contains multiple metrics. Please use `rows`, `first`, `last` or a column name."

/-- `Report.value` (query.py lines 123-130): `None` for zero rows, the
single value `self.values[0]` for one row, and a `ValueError` directing
the caller to `rows`/`first`/`last` or a column name otherwise. -/
def reportValue {α : Type} (r : ReportM α) : Except String (Option α) :=
  if r.rows.length = 0 then .ok none
  else if r.rows.length = 1 then
    match reportValues r with
    | .error e => .error e
    | .ok vs =>
      match vs[0]? with
      | some v => .ok (some v)
      | none => .error "IndexError"
  else .error "This report contains multiple rows or metrics. Please use `rows`, `first`, `last` or a column name."

/- ## Pagination driver (claims C2) -/

/-- One response page as the pagination loop sees it: how many rows
`Report.append` adds from it (each raw row becomes exactly one typed
tuple, query.py lines 98-101) and whether a `nextLink` key is present
(`is_complete = not 'nextLink' in raw`, line 92). -/
structure Page where
  rowCount : Nat
  hasNextLink : Bool
deriving DecidableEq, Repr

/-- `self.raw.get(k, d)` for an integer-valued parameter. -/
def rawGetIntD (k : String) (d : Int) (r : Raw) : Int :=
  match rawGet k r with
  | some (.pint n) => n
  | _ => d

/-- `CoreQuery.next` (query.py lines 898-907): a clone with
`start_index = self.raw.get('start_index', 1) + self.raw.get('max_results', 1000)`. -/
def nextRaw (r : Raw) : Raw :=
  rawSet "start_index" (.pint (rawGetIntD "start_index" 1 r + rawGetIntD "max_results" 1000 r)) r

/-- Total rows of a list of pages. -/
def sumRows (pages : List Page) : Nat := (pages.map Page.rowCount).sum

/-- The last element of a list of pages. -/
def lastRaw : List Page → Option Page
  | [] => none
  | [p] => some p
  | _ :: q :: t => lastRaw (q :: t)

/-- Whether the final page of a synthetic response sequence carries no
`nextLink` (the spec's well-formedness condition on a page sequence). -/
def lastIncomplete (pages : List Page) : Bool :=
  match lastRaw pages with
  | some p => !p.hasNextLink
  | none => false

/-- `is_enough = len(report.rows) >= self.meta.get('limit', float('inf'))`
(query.py line 933): comparing against `float('inf')` is always false,
so a query without a configured limit is never "enough". -/
def isEnoughB (limit : Option Nat) (rows : Nat) : Bool :=
  match limit with
  | some l => decide (l ≤ rows)
  | none => false

/-- The loop condition state after `m ≥ 1` pages have been merged into a
report already holding `acc` rows: `is_enough` of the accumulated row
count, or `is_complete = chunk.is_complete` of the `m`-th page. -/
def stopB (limit : Option Nat) (acc : Nat) (pages : List Page) (m : Nat) : Bool :=
  isEnoughB limit (acc + sumRows (pages.take m)) ||
  (match lastRaw (pages.take m) with
   | some p => !p.hasNextLink
   | none => false)

/-- The `while not (is_enough or is_complete)` loop of `CoreQuery.get`
(query.py lines 909-937), consuming the synthetic response pages in
order.  `cursor` is the query being executed (advanced by
`cursor.next()` between iterations), `acc` the rows accumulated so far.
Returns the accumulated row count and the number of pages fetched, or
`none` when the loop would request a page beyond the supplied sequence. -/
def getDriver (limit : Option Nat) : Raw → Nat → List Page → Option (Nat × Nat)
  | _, _, [] => none
  | cursor, acc, p :: rest =>
    let acc' := acc + p.rowCount
    let is_enough := isEnoughB limit acc'
    let is_complete := !p.hasNextLink
    if is_enough || is_complete then some (acc', 1)
    else
      match getDriver limit (nextRaw cursor) acc' rest with
      | some (r, n) => some (r, n + 1)
      | none => none

/- ## Canonical signature (claims C1 and C3) -/

/-- Decimal digit character. -/
def digitC (d : Nat) : Char :=
  match d with
  | 0 => '0' | 1 => '1' | 2 => '2' | 3 => '3' | 4 => '4'
  | 5 => '5' | 6 => '6' | 7 => '7' | 8 => '8' | 9 => '9'
  | _ => '*'

/-- Digit-extraction loop for `natChars`, structural in a fuel argument
so that concrete renderings evaluate inside the kernel. -/
def natCharsGo (acc : List Char) : Nat → Nat → List Char
  | _, 0 => acc
  | n, fuel + 1 => if n = 0 then acc else natCharsGo (digitC (n % 10) :: acc) (n / 10) fuel

/-- Decimal rendering of a natural number. -/
def natChars (n : Nat) : List Char :=
  if n = 0 then ['0'] else natCharsGo [] n n

/-- Decimal rendering of a Python integer, as `json.dumps` emits it. -/
def intChars (i : Int) : List Char :=
  if i < 0 then '-' :: natChars i.natAbs else natChars i.toNat

/-- `json.dumps` escaping of one string character.  (The control- and
non-ASCII escapes of `json.dumps` are omitted: wire parameter keys and
values are printable ASCII.) -/
def escChar (c : Char) : List Char :=
  if c = '"' ∨ c = '\\' then ['\\', c] else [c]

/-- `json.dumps` escaping of a string body. -/
def escStr (s : List Char) : List Char := (s.map escChar).flatten

/-- A JSON string literal. -/
def jsonStringC (s : List Char) : List Char := '"' :: (escStr s ++ ['"'])

/-- `sep.join` at the character-list level (the `", "` item separator
`json.dumps` uses). -/
def interc (sep : List Char) : List (List Char) → List Char
  | [] => []
  | [x] => x
  | x :: y :: t => x ++ sep ++ interc sep (y :: t)

/-- JSON serialization of one value, as `json.dumps` renders it. -/
def serVal : PyVal → List Char
  | .pstr s => jsonStringC s.data
  | .pint i => intChars i
  | .plist xs => '[' :: (interc [',', ' '] (xs.map (fun s => jsonStringC s.data)) ++ [']'])
  | .pnone => ['n', 'u', 'l', 'l']

/-- JSON serialization of one `(key, value)` tuple, rendered by
`json.dumps` as a two-element array. -/
def serPair (p : String × PyVal) : List Char :=
  '[' :: (jsonStringC p.1.data ++ [',', ' '] ++ serVal p.2 ++ [']'])

/-- `json.dumps(standardized_query)`: the serialized list of key/value
tuples. -/
def jsonChars (l : List (String × PyVal)) : List Char :=
  '[' :: (interc [',', ' '] (l.map serPair) ++ [']'])

/-- Lexicographic comparison of character lists by code point, which is
how Python compares the key strings in `sorted(query.items(), ...)`. -/
def charListLe : List Char → List Char → Bool
  | [], _ => true
  | _ :: _, [] => false
  | a :: as, b :: bs =>
    if a = b then charListLe as bs else decide (a.toNat < b.toNat)

/-- Python string `<=`, by code points. -/
def strLe (a b : String) : Bool := charListLe a.data b.data

/-- `sorted(query.items(), key=lambda t: t[0])` (query.py line 489):
the items sorted by key. -/
def sortByKey (l : List (String × PyVal)) : List (String × PyVal) :=
  l.insertionSort (fun a b => strLe a.1 b.1 = true)

/-- `Query.signature` (query.py lines 486-491) as a function of
`self.raw`, with the hash (`hashlib.sha1(...).hexdigest()`, an external
library) passed in as `hash`: build the wire parameters, sort the items
by key, serialize deterministically, hash. -/
def signatureOf (hash : List Char → List Char) (r : Raw) : Option (List Char) :=
  (buildRaw r).map (fun b => hash (jsonChars (sortByKey b)))

/-- `Query.signature` together with its effect on `self.raw`: line 488
calls `self.build(copy=False)`, so every assignment `build` performs
lands on `self.raw` itself, which afterwards *is* the built dictionary.
Returns the new `self.raw` and the digest. -/
def signatureSelf (hash : List Char → List Char) (r : Raw) : Option (Raw × List Char) :=
  (buildRaw r).map (fun b => (b, hash (jsonChars (sortByKey b))))

/- ## Helper lemmas -/

theorem dateOk_iff (k : String) (r : Raw) :
    dateOk k r = true ↔ ∃ s, rawGet k r = some (.pstr s) ∧ is_relative s = false := by
  unfold dateOk
  cases h : rawGet k r with
  | none => simp
  | some v => cases v <;> simp [h]

/- ## Example evaluations used while developing (kept as anonymous checks) -/

example : cacheable [("start_date", .pstr "2020-01-01"), ("end_date", .pstr "2020-01-31")] = true := by decide
example : cacheable [("start_date", .pstr "today"), ("end_date", .pstr "2020-01-31")] = false := by decide
example : precisionM (.int 3) = .error (.indexError "tuple index out of range") := rfl
example : precisionM (.int (-1)) = .ok (some "HIGHER_PRECISION") := rfl
example : precisionM (.str "FASTER") = .ok (some "FASTER") := rfl
example : segmentKeyword (some "users") none ["ga:sessions>10"] =
    .ok ["users::condition::ga:sessions>10"] := rfl
example : segmentKeyword (some "users") (some "hits") ["ga:timeOnPage>5"] =
    .ok ["users::condition::perHit::ga:timeOnPage>5"] := rfl
example : sortParam [⟨"ga:pageviews", "pageviews"⟩] false [.col ⟨"ga:pageviews", "pageviews"⟩] =
    .error (.unboundLocal "local variable descending referenced before assignment") := rfl
example : sortParam [⟨"ga:pageviews", "pageviews"⟩, ⟨"ga:sessions", "sessions"⟩] false
    [.str "-sessions", .col ⟨"ga:pageviews", "pageviews"⟩] = .ok "-ga:sessions,-ga:pageviews" := rfl
example : sortParam [⟨"ga:pageviews", "pageviews"⟩] false [.str "PAGEVIEWS"] = .ok "ga:pageviews" := rfl
example : backToBackCalls 100 = (100, 100) := rfl
example : (waitQ 100 (some 100)).1 = 1 := rfl
example : getDriver (some 15) [] 0 [⟨10, true⟩, ⟨10, true⟩, ⟨10, false⟩] = some (20, 2) := rfl
example : getDriver none [] 0 [⟨10, true⟩, ⟨10, true⟩, ⟨10, false⟩] = some (30, 3) := rfl
example : rawGetIntD "start_index" 1 (nextRaw [("max_results", .pint 250)]) = 251 := rfl
example : reportValue (α := Nat) ⟨["ga:pageviews"], ["ga:pageviews"], [[42]]⟩ = .ok (some 42) := rfl
example : String.mk (intChars (-120)) = "-120" := by decide
example : String.mk (jsonStringC "a\"b".data) = "\"a\\\"b\"" := by decide
example : String.mk (jsonChars (sortByKey
    [("metrics", .pstr "ga:pageviews"), ("ids", .pstr "ga:123"), ("start_index", .pint 5), ("dimensions", .pnone)])) =
    "[[\"dimensions\", null], [\"ids\", \"ga:123\"], [\"metrics\", \"ga:pageviews\"], [\"start_index\", 5]]" := by decide
example : (signatureSelf id [("ids", .pstr "ga:123"), ("metrics", .plist ["ga:pageviews"]), ("dimensions", .plist [])]).map
    (fun p => rawGet "metrics" p.1) = some (some (.pstr "ga:pageviews")) := by decide

/- ## Claim theorems -/

/-- The query raw dictionary of the C1 failing input: a freshly
constructed query for the `pageviews` metric. -/
def c1raw : Raw :=
  [("ids", .pstr "ga:123"), ("metrics", .plist ["ga:pageviews"]), ("dimensions", .plist [])]

/-- C1: the claim that computing `q.signature` (as `execute` does on the
cache path) leaves `q`'s parameters unchanged is FALSE on the code:
`signature` calls `self.build(copy=False)`, which reassigns
`raw['metrics']` (a list) to its comma-joined string and
`raw['dimensions']` to a string or `None`, on `self.raw` itself.  On a
query with `metrics=['ga:pageviews']` and no dimensions, the metrics
parameter changes from the list to the string and the raw dictionary
after `signature` differs from the one before. -/
theorem C1_signature_mutates_query :
    rawGet "metrics" c1raw = some (.plist ["ga:pageviews"]) ∧
    (signatureSelf id c1raw).map (fun p => rawGet "metrics" p.1) =
      some (some (.pstr "ga:pageviews")) ∧
    (signatureSelf id c1raw).map (fun p => rawGet "dimensions" p.1) =
      some (some .pnone) ∧
    (signatureSelf id c1raw).map (fun p => decide (p.1 = c1raw)) = some false :=
  ⟨rfl, rfl, rfl, rfl⟩

/-- C4: `cacheable` is true exactly when both the start and the end date
are present and absolute; in particular a query whose start date is the
relative expression "today" is never cacheable, and one with the
absolute range 2020-01-01 .. 2020-01-31 is cacheable. -/
theorem C4_cacheable_absolute_dates :
    (∀ r : Raw, cacheable r = true ↔
      ((∃ s, rawGet "start_date" r = some (.pstr s) ∧ is_relative s = false) ∧
       (∃ t, rawGet "end_date" r = some (.pstr t) ∧ is_relative t = false))) ∧
    (∀ r : Raw, rawGet "start_date" r = some (.pstr "today") → cacheable r = false) ∧
    cacheable [("start_date", .pstr "2020-01-01"), ("end_date", .pstr "2020-01-31")] = true := by
  refine ⟨fun r => ?_, fun r h => ?_, by decide⟩
  · unfold cacheable
    rw [Bool.and_eq_true, dateOk_iff, dateOk_iff]
  · unfold cacheable dateOk
    rw [h]
    simp [show is_relative "today" = true from rfl]

/-- C4 witness: the cacheability criterion evaluated through the theorem
at concrete queries. -/
theorem C4_cacheable_absolute_dates_witness :
    cacheable [("start_date", .pstr "today"), ("end_date", .pstr "2020-01-31")] = false ∧
    cacheable [("start_date", .pstr "2020-01-01"), ("end_date", .pstr "2020-01-31")] = true :=
  ⟨C4_cacheable_absolute_dates.2.1 _ rfl, C4_cacheable_absolute_dates.2.2⟩

/-- C5: the claim that the rate limiter's last-call timestamp is shared
process-wide is FALSE on the code: `Query._lock` is read through the
class attribute but `self._lock = time.time()` writes an instance
attribute, so a second, fresh Query instance still reads `0`.  Two
instances executing back-to-back at time 100 both sleep 0 and their
outbound calls are 0 time units apart (the same instance calling again
would sleep a full unit). -/
theorem C5_rate_limiter_per_instance :
    backToBackCalls 100 = (100, 100) ∧
    (backToBackCalls 100).2 - (backToBackCalls 100).1 = 0 ∧
    ¬ (1 ≤ (backToBackCalls 100).2 - (backToBackCalls 100).1) ∧
    (waitQ 100 (some 100)).1 = 1 :=
  ⟨rfl, rfl, by decide, rfl⟩

/-- C6 counterexample: the claim that the segment scope is mapped to
`perUser`/`perSession`/`perHit` is FALSE on the code: `SCOPES` is
applied to `metric_scope` only, and the scope string is used verbatim
(any non-empty string is accepted). -/
theorem C6_scope_unmapped_counterexample :
    segmentKeyword (some "users") none ["ga:sessions>10"] =
      .ok ["users::condition::ga:sessions>10"] ∧
    ("users::condition::ga:sessions>10" : String) ≠ "perUser::condition::ga:sessions>10" ∧
    segmentKeyword (some "banana") none ["ga:sessions>10"] =
      .ok ["banana::condition::ga:sessions>10"] :=
  ⟨rfl, by decide, rfl⟩

/-- C6 amended: a non-empty scope argument is required (missing or empty
scope raises the ValueError naming users and sessions) and is used
verbatim; the optional metric scope is the argument mapped through
hits/sessions/users -> perHit/perSession/perUser; each compiled segment
expression joins the non-empty parts of
[scope, "condition", metric_scope, condition] with '::', skipping empty
parts rather than leaving blank separators.  The final conjunct settles
the whole metric-scope mapping: a non-empty metric scope outside the
SCOPES table raises the KeyError of the dictionary lookup on line 882. -/
theorem C6_segment_compile_amended :
    (∀ ms conds, segmentKeyword none ms conds =
      .error (.valueError "Scope is required. Choose from: users, sessions.")) ∧
    (∀ ms conds, segmentKeyword (some "") ms conds =
      .error (.valueError "Scope is required. Choose from: users, sessions.")) ∧
    (∀ sc conds, sc ≠ "" → segmentKeyword (some sc) none conds =
      .ok (conds.map (fun c => joinNonEmpty "::" [some sc, some "condition", none, some c]))) ∧
    (∀ sc m x conds, sc ≠ "" → m ≠ "" → SCOPES m = some x →
      segmentKeyword (some sc) (some m) conds =
      .ok (conds.map (fun c => joinNonEmpty "::" [some sc, some "condition", some x, some c]))) ∧
    (SCOPES "users" = some "perUser" ∧ SCOPES "sessions" = some "perSession" ∧
      SCOPES "hits" = some "perHit") ∧
    joinNonEmpty "::" [some "users", some "condition", none, some "ga:sessions>10"] =
      "users::condition::ga:sessions>10" ∧
    (∀ sc m conds, sc ≠ "" → m ≠ "" → SCOPES m = none →
      segmentKeyword (some sc) (some m) conds = .error (.keyError m)) := by
  refine ⟨fun ms conds => rfl, fun ms conds => rfl, fun sc conds hsc => ?_,
    fun sc m x conds hsc hm hx => ?_, ⟨rfl, rfl, rfl⟩, rfl,
    fun sc m conds hsc hm hx => ?_⟩
  · simp [segmentKeyword, hsc, pure, Except.pure, Bind.bind, Except.bind]
  · simp [segmentKeyword, hsc, hm, hx, pure, Except.pure, Bind.bind, Except.bind]
  · simp [segmentKeyword, hsc, hm, hx, pure, Except.pure, Bind.bind, Except.bind]

/-- C6 witness: the amended compilation evaluated through the theorem at
concrete segment calls: a recognized metric scope is mapped, an
unrecognized one raises the lookup KeyError. -/
theorem C6_segment_compile_amended_witness :
    segmentKeyword (some "sessions") (some "users") ["ga:revenue>10"] =
      .ok ["sessions::condition::perUser::ga:revenue>10"] ∧
    segmentKeyword (some "users") (some "visits") ["ga:revenue>10"] =
      .error (.keyError "visits") :=
  ⟨C6_segment_compile_amended.2.2.2.1 "sessions" "users" "perUser" ["ga:revenue>10"]
     (by decide) (by decide) rfl,
   C6_segment_compile_amended.2.2.2.2.2.2 "users" "visits" ["ga:revenue>10"]
     (by decide) (by decide) rfl⟩

/-- C7: the claim that an already-resolved Column object contributes its
id is FALSE on the code: the `descending` local is only assigned in the
string branch of `Query.sort`, so a Column object as the first argument
hits an unbound local when the sign is computed (the docstring example
`query.sort(-pageviews)` crashes), and a Column object after a
descending string argument silently inherits the stale descending flag.
String arguments do resolve case-insensitively with '-' or the
descending flag selecting descending order, comma-joined in order. -/
theorem C7_sort_descending_unbound :
    sortParam [⟨"ga:pageviews", "pageviews"⟩] false [.col ⟨"ga:pageviews", "pageviews"⟩] =
      .error (.unboundLocal "local variable descending referenced before assignment") ∧
    sortParam [⟨"ga:pageviews", "pageviews"⟩, ⟨"ga:sessions", "sessions"⟩] false
      [.str "-sessions", .col ⟨"ga:pageviews", "pageviews"⟩] =
      .ok "-ga:sessions,-ga:pageviews" ∧
    sortParam [⟨"ga:pageviews", "pageviews"⟩] true [.str "PAGEVIEWS"] = .ok "-ga:pageviews" ∧
    sortParam [⟨"ga:pageviews", "pageviews"⟩, ⟨"ga:sessions", "sessions"⟩] false
      [.str "pageviews", .str "-SESSIONS"] = .ok "ga:pageviews,-ga:sessions" :=
  ⟨rfl, rfl, rfl, rfl⟩

/-- C9: the `execute` error taxonomy: a TypeError from the transport is
re-raised as an invalid-request error enriched with the full parameter
dictionary; an exception carrying a `content` attribute is re-raised as
the distinct service error with the original message; every other
exception propagates unchanged; a successful fetch is untouched; and
the three outcomes are pairwise distinct. -/
theorem C9_execute_error_taxonomy :
    (∀ (α : Type) (raw : Raw) (m : String) (c : Option String),
      executeNet (α := α) raw (.error ⟨true, c, m⟩) = .error (.invalidRequest m raw)) ∧
    (∀ (α : Type) (raw : Raw) (m c : String),
      executeNet (α := α) raw (.error ⟨false, some c, m⟩) = .error (.gaError m)) ∧
    (∀ (α : Type) (raw : Raw) (m : String),
      executeNet (α := α) raw (.error ⟨false, none, m⟩) =
        .error (.reraised ⟨false, none, m⟩)) ∧
    (∀ (α : Type) (raw : Raw) (r : α), executeNet raw (.ok r) = .ok r) ∧
    (∀ (m : String) (p : Raw) (m' : String), ExecErr.invalidRequest m p ≠ .gaError m') ∧
    (∀ (m : String) (p : Raw) (e : PyExc), ExecErr.invalidRequest m p ≠ .reraised e) ∧
    (∀ (m : String) (e : PyExc), ExecErr.gaError m ≠ .reraised e) :=
  ⟨fun _ _ _ _ => rfl, fun _ _ _ _ => rfl, fun _ _ _ => rfl, fun _ _ _ => rfl,
    fun _ _ _ h => ExecErr.noConfusion h, fun _ _ _ h => ExecErr.noConfusion h,
    fun _ _ h => ExecErr.noConfusion h⟩

/-- C10: `Report.value` returns `None` on zero rows, the single typed
value on exactly one row with one accumulated metric, and raises the
ValueError directing the caller to rows/first/last or a column name on
more than one row. -/
theorem C10_report_value :
    (∀ (α : Type) (r : ReportM α), r.rows = [] → reportValue r = .ok none) ∧
    (∀ (α : Type) (r : ReportM α) (row : List α) (m : String) (i : Nat) (v : α),
      r.rows = [row] → r.metrics = [m] → r.headers.indexOf? m = some i →
      row[i]? = some v → reportValue r = .ok (some v)) ∧
    (∀ (α : Type) (r : ReportM α), 2 ≤ r.rows.length → reportValue r =
      .error "This report contains multiple rows or metrics. Please use `rows`, `first`, `last` or a column name.") := by
  refine ⟨fun α r h => ?_, fun α r row m i v hr hm hi hv => ?_, fun α r h => ?_⟩
  · simp [reportValue, h]
  · simp [reportValue, reportValues, reportCol, colAt, hr, hm, hi, hv]
  · rw [reportValue, if_neg (by omega), if_neg (by omega)]

/-- C10 witness: `Report.value` evaluated through the theorem on
concrete zero-row, one-row and two-row reports. -/
theorem C10_report_value_witness :
    reportValue (α := Nat) ⟨["ga:pageviews"], ["ga:pageviews"], []⟩ = .ok none ∧
    reportValue (α := Nat) ⟨["ga:pageviews"], ["ga:pageviews"], [[42]]⟩ = .ok (some 42) ∧
    reportValue (α := Nat) ⟨["ga:pageviews"], ["ga:pageviews"], [[1], [2]]⟩ =
      .error "This report contains multiple rows or metrics. Please use `rows`, `first`, `last` or a column name." :=
  ⟨C10_report_value.1 Nat _ rfl,
   C10_report_value.2.1 Nat _ [42] "ga:pageviews" 0 42 rfl rfl rfl rfl,
   C10_report_value.2.2 Nat _ (by decide)⟩

/-- C8 counterexample: the claim that every out-of-range integer raises
an error enumerating the valid precision levels is FALSE on the code:
`self.PRECISION_LEVELS[precision]` raises a bare IndexError for 3 (no
enumeration), and the "out-of-range" integer -1 is silently accepted as
a Python negative index selecting HIGHER_PRECISION. -/
theorem C8_precision_index_counterexample :
    precisionM (.int 3) = .error (.indexError "tuple index out of range") ∧
    Err.indexError "tuple index out of range" ≠
      Err.valueError ("Precision should be one of: " ++ joinS ", " PRECISION_LEVELS) ∧
    precisionM (.int (-1)) = .ok (some "HIGHER_PRECISION") :=
  ⟨rfl, by decide, rfl⟩

/-- C8 amended: an integer argument is interpreted as a Python index
into the 3-level table, so -3..2 resolve (negative values count from the
end) and only integers outside [-3, 3) raise, with a bare IndexError
that does not enumerate the levels; a string argument must be one of the
level names, anything else raises the ValueError enumerating them; the
samplingLevel value is emitted iff the resolved level is not DEFAULT. -/
theorem C8_precision_amended :
    precisionM (.int 0) = .ok (some "FASTER") ∧
    precisionM (.int 1) = .ok none ∧
    precisionM (.int 2) = .ok (some "HIGHER_PRECISION") ∧
    precisionM (.int (-1)) = .ok (some "HIGHER_PRECISION") ∧
    precisionM (.int (-2)) = .ok none ∧
    precisionM (.int (-3)) = .ok (some "FASTER") ∧
    (∀ i : Int, i < -3 ∨ 3 ≤ i →
      precisionM (.int i) = .error (.indexError "tuple index out of range")) ∧
    (∀ s : String, s ∉ PRECISION_LEVELS →
      precisionM (.str s) =
        .error (.valueError ("Precision should be one of: " ++ joinS ", " PRECISION_LEVELS))) ∧
    (∀ s : String, s ∈ PRECISION_LEVELS →
      precisionM (.str s) = .ok (if s ≠ "DEFAULT" then some s else none)) ∧
    joinS ", " PRECISION_LEVELS = "FASTER, DEFAULT, HIGHER_PRECISION" := by
  refine ⟨rfl, rfl, rfl, rfl, rfl, rfl, fun i hi => ?_, fun s hs => ?_, fun s hs => ?_, by decide⟩
  · rcases hi with hlt | hge
    · have h0 : i < 0 := by omega
      have h1 : ¬ ((0 : Int) ≤ i + 3) := by omega
      simp [precisionM, pyTupleGet, PRECISION_LEVELS, h0, h1, Bind.bind, Except.bind]
    · have h0 : ¬ (i < 0) := by omega
      have h1 : (0 : Int) ≤ i := by omega
      have h2 : PRECISION_LEVELS[i.toNat]? = none :=
        List.getElem?_eq_none (by simp [PRECISION_LEVELS]; omega)
      simp [precisionM, pyTupleGet, h0, h1, h2, Bind.bind, Except.bind]
  · simp [precisionM, pure, Except.pure, Bind.bind, Except.bind, hs]
  · simp [PRECISION_LEVELS] at hs
    rcases hs with h | h | h <;> subst h <;> rfl

/-- C8 witness: the amended behavior evaluated through the theorem at an
out-of-range integer, an unknown name and a valid name. -/
theorem C8_precision_amended_witness :
    precisionM (.int 5) = .error (.indexError "tuple index out of range") ∧
    precisionM (.str "BOGUS") =
      .error (.valueError ("Precision should be one of: " ++ joinS ", " PRECISION_LEVELS)) ∧
    precisionM (.str "FASTER") = .ok (some "FASTER") :=
  ⟨C8_precision_amended.2.2.2.2.2.2.1 5 (by omega),
   C8_precision_amended.2.2.2.2.2.2.2.1 "BOGUS" (by decide),
   C8_precision_amended.2.2.2.2.2.2.2.2.1 "FASTER" (by decide)⟩

/- ## Pagination loop lemmas -/

theorem rawGet_rawSet (k k' : String) (v : PyVal) (r : Raw) :
    rawGet k (rawSet k' v r) = if k = k' then some v else rawGet k r := by
  induction r with
  | nil => simp [rawSet, rawGet]
  | cons hd t ih =>
    obtain ⟨k0, w⟩ := hd
    by_cases h1 : k' = k0
    · subst h1
      by_cases h2 : k = k' <;> simp [rawSet, rawGet, h2]
    · by_cases h2 : k = k0
      · subst h2
        have h3 : ¬ k = k' := fun hh => h1 hh.symm
        simp [rawSet, rawGet, h1, h3]
      · simp [rawSet, rawGet, h1, h2, ih]

theorem lastRaw_cons_cons (p q : Page) (t : List Page) :
    lastRaw (p :: q :: t) = lastRaw (q :: t) := rfl

theorem lastIncomplete_cons (p : Page) (rest : List Page) (h : rest ≠ []) :
    lastIncomplete (p :: rest) = lastIncomplete rest := by
  obtain ⟨q, t, rfl⟩ := List.exists_cons_of_ne_nil h
  simp [lastIncomplete, lastRaw_cons_cons]

theorem stopB_one (limit : Option Nat) (acc : Nat) (p : Page) (rest : List Page) :
    stopB limit acc (p :: rest) 1 =
      (isEnoughB limit (acc + p.rowCount) || !p.hasNextLink) := by
  simp [stopB, sumRows, lastRaw]

theorem stopB_cons (limit : Option Nat) (acc : Nat) (p : Page) (rest : List Page)
    (m : Nat) (hm : 1 ≤ m) (hr : rest ≠ []) :
    stopB limit acc (p :: rest) (m + 1) = stopB limit (acc + p.rowCount) rest m := by
  obtain ⟨q, rest', rfl⟩ := List.exists_cons_of_ne_nil hr
  obtain ⟨m', rfl⟩ : ∃ m', m = m' + 1 := ⟨m - 1, by omega⟩
  simp [stopB, sumRows, List.take_succ_cons, lastRaw_cons_cons, Nat.add_assoc]

theorem getDriver_cons (limit : Option Nat) (cursor : Raw) (acc : Nat) (p : Page)
    (rest : List Page) :
    getDriver limit cursor acc (p :: rest) =
      (if isEnoughB limit (acc + p.rowCount) || !p.hasNextLink
       then some (acc + p.rowCount, 1)
       else
        match getDriver limit (nextRaw cursor) (acc + p.rowCount) rest with
        | some (r, n) => some (r, n + 1)
        | none => none) := rfl

theorem getDriver_run (limit : Option Nat) :
    ∀ (pages : List Page) (cursor : Raw) (acc : Nat), pages ≠ [] →
      lastIncomplete pages = true →
      ∃ n, 1 ≤ n ∧ n ≤ pages.length ∧
        getDriver limit cursor acc pages = some (acc + sumRows (pages.take n), n) ∧
        stopB limit acc pages n = true ∧
        ∀ m, 1 ≤ m → m < n → stopB limit acc pages m = false := by
  intro pages
  induction pages with
  | nil => intro cursor acc h _; exact absurd rfl h
  | cons p rest ih =>
    intro cursor acc _ hlast
    by_cases hstop : (isEnoughB limit (acc + p.rowCount) || !p.hasNextLink) = true
    · refine ⟨1, le_refl 1, by simp, ?_, ?_, ?_⟩
      · rw [getDriver_cons, if_pos hstop]
        simp [sumRows, lastRaw]
      · rw [stopB_one]; exact hstop
      · intro m h1 h2; omega
    · have hp : p.hasNextLink = true := by
        cases hnl : p.hasNextLink
        · simp [hnl] at hstop
        · rfl
      have hrest : rest ≠ [] := by
        intro h
        subst h
        simp [lastIncomplete, lastRaw, hp] at hlast
      have hlast' : lastIncomplete rest = true := by
        rwa [lastIncomplete_cons p rest hrest] at hlast
      obtain ⟨n, hn1, hn2, hrun, hstopn, hmin⟩ :=
        ih (nextRaw cursor) (acc + p.rowCount) hrest hlast'
      refine ⟨n + 1, by omega, by simp; omega, ?_, ?_, ?_⟩
      · rw [getDriver_cons, if_neg hstop, hrun]
        simp [sumRows, List.take_succ_cons, Nat.add_assoc]
      · rw [stopB_cons limit acc p rest n hn1 hrest]; exact hstopn
      · intro m h1 h2
        match m, h1 with
        | 1, _ =>
          rw [stopB_one]
          exact Bool.eq_false_iff.mpr (fun hh => hstop hh)
        | m' + 2, _ =>
          rw [show m' + 2 = (m' + 1) + 1 from rfl,
            stopB_cons limit acc p rest (m' + 1) (by omega) hrest]
          exact hmin (m' + 1) (by omega) (by omega)

/-- C2: for every limit (none = infinite) and every nonempty synthetic
page sequence whose final page has no nextLink, the `get` loop fetches
exactly the shortest prefix of pages after which the stop condition
first holds (accumulated rows reached the limit, or the merged page has
no nextLink), never stopping mid-page, and returns a report whose row
count is the sum of all fetched pages' rows; and `next()` derives each
following query with
`start_index = raw.get('start_index', 1) + raw.get('max_results', 1000)`. -/
theorem C2_pagination_driver :
    (∀ (limit : Option Nat) (cursor : Raw) (pages : List Page),
      pages ≠ [] → lastIncomplete pages = true →
      ∃ n, 1 ≤ n ∧ n ≤ pages.length ∧
        getDriver limit cursor 0 pages = some (sumRows (pages.take n), n) ∧
        stopB limit 0 pages n = true ∧
        ∀ m, 1 ≤ m → m < n → stopB limit 0 pages m = false) ∧
    (∀ r : Raw, rawGetIntD "start_index" 1 (nextRaw r) =
      rawGetIntD "start_index" 1 r + rawGetIntD "max_results" 1000 r) := by
  constructor
  · intro limit cursor pages h1 h2
    obtain ⟨n, a, b, c, d, e⟩ := getDriver_run limit pages cursor 0 h1 h2
    exact ⟨n, a, b, by simpa using c, d, e⟩
  · intro r
    unfold nextRaw rawGetIntD
    rw [rawGet_rawSet]
    simp

/-- C2 witness: the pagination characterization applied to a limit of 15
and three pages of 10 rows each (the spec's early-stop example: exactly
2 fetches, 20 rows), and `next()` applied to a query with a step of 250. -/
theorem C2_pagination_driver_witness :
    (∃ n, 1 ≤ n ∧ n ≤ ([⟨10, true⟩, ⟨10, true⟩, ⟨10, false⟩] : List Page).length ∧
      getDriver (some 15) [] 0 [⟨10, true⟩, ⟨10, true⟩, ⟨10, false⟩] =
        some (sumRows (([⟨10, true⟩, ⟨10, true⟩, ⟨10, false⟩] : List Page).take n), n) ∧
      stopB (some 15) 0 [⟨10, true⟩, ⟨10, true⟩, ⟨10, false⟩] n = true ∧
      ∀ m, 1 ≤ m → m < n → stopB (some 15) 0 [⟨10, true⟩, ⟨10, true⟩, ⟨10, false⟩] m = false) ∧
    rawGetIntD "start_index" 1 (nextRaw [("max_results", .pint 250)]) =
      rawGetIntD "start_index" 1 [("max_results", .pint 250)] +
        rawGetIntD "max_results" 1000 [("max_results", .pint 250)] :=
  ⟨C2_pagination_driver.1 (some 15) [] [⟨10, true⟩, ⟨10, true⟩, ⟨10, false⟩]
      (by decide) (by decide),
   C2_pagination_driver.2 [("max_results", .pint 250)]⟩

/- ## Canonicalization lemmas: sorted items depend only on the mapping -/

theorem rawGet_eq_none (k : String) (r : Raw) (h : ∀ p ∈ r, k ≠ p.1) :
    rawGet k r = none := by
  induction r with
  | nil => rfl
  | cons p t ih =>
    obtain ⟨k0, v0⟩ := p
    have hk : k ≠ k0 := h (k0, v0) (by simp)
    simp only [rawGet, if_neg hk]
    exact ih (fun q hq => h q (List.mem_cons_of_mem _ hq))


theorem rawGet_mem (k : String) (v : PyVal) (r : Raw) (h : rawGet k r = some v) :
    (k, v) ∈ r := by
  induction r with
  | nil => simp [rawGet] at h
  | cons p t ih =>
    obtain ⟨k0, v0⟩ := p
    by_cases hk : k = k0
    · subst hk
      simp [rawGet] at h
      subst h
      exact List.mem_cons_self _ _
    · simp only [rawGet, if_neg hk] at h
      exact List.mem_cons_of_mem _ (ih h)

theorem mem_rawSet (q : String × PyVal) (k : String) (v : PyVal) (r : Raw)
    (h : q ∈ rawSet k v r) : q = (k, v) ∨ q ∈ r := by
  induction r with
  | nil => simp [rawSet] at h; exact Or.inl h
  | cons p t ih =>
    obtain ⟨k0, w⟩ := p
    by_cases hk : k = k0
    · subst hk
      simp only [rawSet, if_pos rfl] at h
      rcases List.mem_cons.mp h with h1 | h1
      · exact Or.inl h1
      · exact Or.inr (List.mem_cons_of_mem _ h1)
    · simp only [rawSet, if_neg hk] at h
      rcases List.mem_cons.mp h with h1 | h1
      · exact Or.inr (h1 ▸ List.mem_cons_self _ _)
      · rcases ih h1 with h' | h'
        · exact Or.inl h'
        · exact Or.inr (List.mem_cons_of_mem _ h')

theorem NodupKeys_rawSet (k : String) (v : PyVal) (r : Raw) (h : NodupKeys r) :
    NodupKeys (rawSet k v r) := by
  induction r with
  | nil => simp [rawSet, NodupKeys]
  | cons p t ih =>
    obtain ⟨k0, w⟩ := p
    rcases List.pairwise_cons.mp h with ⟨hhead, htail⟩
    by_cases hk : k = k0
    · subst hk
      simp only [rawSet, if_pos rfl]
      exact List.pairwise_cons.mpr ⟨fun q hq => hhead q hq, htail⟩
    · simp only [rawSet, if_neg hk]
      refine List.pairwise_cons.mpr ⟨fun q hq => ?_, ih htail⟩
      rcases mem_rawSet q k v t hq with h' | h'
      · subst h'
        exact fun hh => hk hh.symm
      · exact hhead q h'

/-- Removal of one entry from an association list. -/
def eraseEntry (q : String × PyVal) : Raw → Raw
  | [] => []
  | p :: t => if p = q then t else p :: eraseEntry q t

theorem perm_cons_eraseEntry (q : String × PyVal) :
    ∀ r : Raw, q ∈ r → r.Perm (q :: eraseEntry q r) := by
  intro r
  induction r with
  | nil => intro h; simp at h
  | cons p t ih =>
    intro h
    by_cases hp : p = q
    · subst hp
      simp [eraseEntry]
    · have hq : q ∈ t := by
        rcases List.mem_cons.mp h with h' | h'
        · exact absurd h'.symm hp
        · exact h'
      simp only [eraseEntry, if_neg hp]
      exact (List.Perm.cons p (ih hq)).trans (List.Perm.swap q p _)

theorem eraseEntry_sublist (q : String × PyVal) :
    ∀ r : Raw, (eraseEntry q r).Sublist r := by
  intro r
  induction r with
  | nil => simp [eraseEntry]
  | cons p t ih =>
    by_cases hp : p = q
    · simp only [eraseEntry, if_pos hp]
      exact List.sublist_cons_self p t
    · simp only [eraseEntry, if_neg hp]
      exact List.Sublist.cons₂ p ih

theorem rawGet_eraseEntry (k k' : String) (v : PyVal) :
    ∀ r : Raw, NodupKeys r → (k, v) ∈ r →
      rawGet k' (eraseEntry (k, v) r) = if k' = k then none else rawGet k' r := by
  intro r
  induction r with
  | nil => intro _ hmem; simp at hmem
  | cons p t ih =>
    intro hnd hmem
    obtain ⟨ka, va⟩ := p
    rcases List.pairwise_cons.mp hnd with ⟨hhead, htail⟩
    by_cases hp : (ka, va) = (k, v)
    · rw [Prod.mk.injEq] at hp
      obtain ⟨rfl, rfl⟩ := hp
      simp only [eraseEntry, if_pos rfl]
      by_cases hk' : k' = ka
      · subst hk'
        rw [if_pos rfl]
        exact rawGet_eq_none _ _ (fun q hq => hhead q hq)
      · rw [if_neg hk']
        simp [rawGet, hk']
    · have hmem' : (k, v) ∈ t := by
        rcases List.mem_cons.mp hmem with h' | h'
        · exact absurd h'.symm hp
        · exact h'
      have hka : ka ≠ k := by
        intro hh
        subst hh
        exact hhead (ka, v) hmem' rfl
      simp only [eraseEntry, if_neg hp]
      by_cases hk' : k' = ka
      · subst hk'
        simp [rawGet, hka]
      · simp only [rawGet, if_neg hk']
        rw [ih htail hmem']

theorem perm_of_rawGet_eq :
    ∀ (l1 l2 : Raw), NodupKeys l1 → NodupKeys l2 →
      (∀ k, rawGet k l1 = rawGet k l2) → l1.Perm l2 := by
  intro l1
  induction l1 with
  | nil =>
    intro l2 _ _ h
    cases l2 with
    | nil => exact List.Perm.refl _
    | cons p t =>
      obtain ⟨k0, v0⟩ := p
      have hh := h k0
      simp [rawGet] at hh
  | cons p t1 ih =>
    intro l2 hnd1 hnd2 h
    obtain ⟨k, v⟩ := p
    have hget : rawGet k l2 = some v := by
      have hh := h k
      simp only [rawGet, if_pos rfl] at hh
      exact hh.symm
    have hmem : (k, v) ∈ l2 := rawGet_mem _ _ _ hget
    have hperm2 : l2.Perm ((k, v) :: eraseEntry (k, v) l2) :=
      perm_cons_eraseEntry (k, v) l2 hmem
    rcases List.pairwise_cons.mp hnd1 with ⟨hhead, htail⟩
    have hnd2' : NodupKeys (eraseEntry (k, v) l2) :=
      List.Pairwise.sublist (eraseEntry_sublist _ _) hnd2
    have hlk : ∀ k', rawGet k' t1 = rawGet k' (eraseEntry (k, v) l2) := by
      intro k'
      rw [rawGet_eraseEntry k k' v l2 hnd2 hmem]
      by_cases hk' : k' = k
      · subst hk'
        rw [if_pos rfl]
        exact rawGet_eq_none _ _ (fun q hq => hhead q hq)
      · rw [if_neg hk']
        have hh := h k'
        simp only [rawGet, if_neg hk'] at hh
        exact hh
    exact (List.Perm.cons (k, v) (ih (eraseEntry (k, v) l2) htail hnd2' hlk)).trans hperm2.symm

/- ## The key order used by the canonical sort -/

theorem charToNat_inj (a b : Char) (h : a.toNat = b.toNat) : a = b := by
  apply Char.ext
  exact UInt32.toNat.inj h

theorem charListLe_total : ∀ a b : List Char, charListLe a b = true ∨ charListLe b a = true := by
  intro a
  induction a with
  | nil => intro b; left; rfl
  | cons x xs ih =>
    intro b
    cases b with
    | nil => right; rfl
    | cons y ys =>
      by_cases hxy : x = y
      · subst hxy
        rcases ih ys with h | h
        · left; simpa [charListLe] using h
        · right; simpa [charListLe] using h
      · have hyx : y ≠ x := fun hh => hxy hh.symm
        rcases Nat.lt_trichotomy x.toNat y.toNat with h | h | h
        · left; simp [charListLe, hxy, h]
        · exact absurd (charToNat_inj _ _ h) hxy
        · right; simp [charListLe, hyx, h]

theorem charListLe_trans :
    ∀ a b c : List Char, charListLe a b = true → charListLe b c = true →
      charListLe a c = true := by
  intro a
  induction a with
  | nil => intro b c _ _; rfl
  | cons x xs ih =>
    intro b c hab hbc
    cases b with
    | nil => simp [charListLe] at hab
    | cons y ys =>
      cases c with
      | nil => simp [charListLe] at hbc
      | cons z zs =>
        by_cases hxy : x = y
        · subst hxy
          by_cases hxz : x = z
          · subst hxz
            simp only [charListLe, if_pos rfl] at hab hbc ⊢
            exact ih ys zs hab hbc
          · simp only [charListLe, if_pos rfl] at hab
            simpa [charListLe, hxz] using hbc
        · by_cases hyz : y = z
          · subst hyz
            simp only [charListLe, if_pos rfl] at hbc
            simpa [charListLe, hxy] using hab
          · simp only [charListLe, if_neg hxy] at hab
            simp only [charListLe, if_neg hyz] at hbc
            have hxz : x ≠ z := by
              intro hh
              subst hh
              have h1 : x.toNat < y.toNat := by simpa using hab
              have h2 : y.toNat < x.toNat := by simpa using hbc
              omega
            simp only [charListLe, if_neg hxz]
            have h1 : x.toNat < y.toNat := by simpa using hab
            have h2 : y.toNat < z.toNat := by simpa using hbc
            simp
            omega

theorem charListLe_antisymm :
    ∀ a b : List Char, charListLe a b = true → charListLe b a = true → a = b := by
  intro a
  induction a with
  | nil =>
    intro b _ hba
    cases b with
    | nil => rfl
    | cons y ys => simp [charListLe] at hba
  | cons x xs ih =>
    intro b hab hba
    cases b with
    | nil => simp [charListLe] at hab
    | cons y ys =>
      by_cases hxy : x = y
      · subst hxy
        simp only [charListLe, if_pos rfl] at hab hba
        rw [ih ys hab hba]
      · have hyx : y ≠ x := fun hh => hxy hh.symm
        simp only [charListLe, if_neg hxy] at hab
        simp only [charListLe, if_neg hyx] at hba
        have h1 : x.toNat < y.toNat := by simpa using hab
        have h2 : y.toNat < x.toNat := by simpa using hba
        omega

theorem strLe_total (a b : String) : strLe a b = true ∨ strLe b a = true :=
  charListLe_total a.data b.data

theorem strLe_trans (a b c : String) (h1 : strLe a b = true) (h2 : strLe b c = true) :
    strLe a c = true :=
  charListLe_trans a.data b.data c.data h1 h2

theorem strLe_antisymm (a b : String) (h1 : strLe a b = true) (h2 : strLe b a = true) :
    a = b := by
  cases a with
  | mk da =>
    cases b with
    | mk db =>
      have := charListLe_antisymm da db h1 h2
      rw [this]

instance : IsTotal (String × PyVal) (fun a b => strLe a.1 b.1 = true) :=
  ⟨fun a b => strLe_total a.1 b.1⟩

instance : IsTrans (String × PyVal) (fun a b => strLe a.1 b.1 = true) :=
  ⟨fun a b c => strLe_trans a.1 b.1 c.1⟩

theorem sortByKey_perm (l : Raw) : (sortByKey l).Perm l :=
  List.perm_insertionSort _ l

theorem sortByKey_sorted (l : Raw) :
    List.Sorted (fun a b : String × PyVal => strLe a.1 b.1 = true) (sortByKey l) :=
  List.sorted_insertionSort _ l

theorem sortByKey_congr (l1 l2 : Raw) (hnd1 : NodupKeys l1) (h : l1.Perm l2) :
    sortByKey l1 = sortByKey l2 := by
  have hperm : (sortByKey l1).Perm (sortByKey l2) :=
    (sortByKey_perm l1).trans (h.trans (sortByKey_perm l2).symm)
  have hnd1' : NodupKeys (sortByKey l1) :=
    (List.Perm.pairwise_iff (fun hh => Ne.symm hh) (sortByKey_perm l1)).mpr hnd1
  have hnd2' : NodupKeys (sortByKey l2) :=
    (List.Perm.pairwise_iff (fun hh => Ne.symm hh) hperm).mp hnd1'
  have hs1 : List.Pairwise
      (fun a b : String × PyVal => strLe a.1 b.1 = true ∧ a.1 ≠ b.1) (sortByKey l1) :=
    (sortByKey_sorted l1).and hnd1'
  have hs2 : List.Pairwise
      (fun a b : String × PyVal => strLe a.1 b.1 = true ∧ a.1 ≠ b.1) (sortByKey l2) :=
    (sortByKey_sorted l2).and hnd2'
  haveI : IsAntisymm (String × PyVal)
      (fun a b => strLe a.1 b.1 = true ∧ a.1 ≠ b.1) :=
    ⟨fun a b h1 h2 => absurd (strLe_antisymm a.1 b.1 h1.1 h2.1) h1.2⟩
  exact List.eq_of_perm_of_sorted hperm hs1 hs2

/-- The canonical sorted item list of two queries with the same
wire-parameter mapping is identical, no matter in which order the
builder inserted the keys. -/
theorem sortByKey_eq_of_rawGet_eq (l1 l2 : Raw) (hnd1 : NodupKeys l1)
    (hnd2 : NodupKeys l2) (h : ∀ k, rawGet k l1 = rawGet k l2) :
    sortByKey l1 = sortByKey l2 :=
  sortByKey_congr l1 l2 hnd1 (perm_of_rawGet_eq l1 l2 hnd1 hnd2 h)

/- ## Determinism of the signature through build -/

theorem buildRaw_congr (r1 r2 : Raw) (hnd1 : NodupKeys r1) (hnd2 : NodupKeys r2)
    (h : ∀ k, rawGet k r1 = rawGet k r2) :
    (buildRaw r1 = none ∧ buildRaw r2 = none) ∨
    (∃ b1 b2, buildRaw r1 = some b1 ∧ buildRaw r2 = some b2 ∧
      NodupKeys b1 ∧ NodupKeys b2 ∧ ∀ k, rawGet k b1 = rawGet k b2) := by
  have hm := h "metrics"
  cases hmv : rawGet "metrics" r2 with
  | none =>
    exact Or.inl ⟨by simp [buildRaw, hm.trans hmv], by simp [buildRaw, hmv]⟩
  | some mv =>
    have hmv1 : rawGet "metrics" r1 = some mv := hm.trans hmv
    cases hj : joinVal "," mv with
    | none =>
      exact Or.inl ⟨by simp [buildRaw, hmv1, hj], by simp [buildRaw, hmv, hj]⟩
    | some ms =>
      have h1 : ∀ k, rawGet k (rawSet "metrics" (.pstr ms) r1) =
          rawGet k (rawSet "metrics" (.pstr ms) r2) := by
        intro k
        rw [rawGet_rawSet, rawGet_rawSet, h k]
      have hnd1' : NodupKeys (rawSet "metrics" (.pstr ms) r1) :=
        NodupKeys_rawSet _ _ _ hnd1
      have hnd2' : NodupKeys (rawSet "metrics" (.pstr ms) r2) :=
        NodupKeys_rawSet _ _ _ hnd2
      cases hdv : rawGet "dimensions" (rawSet "metrics" (.pstr ms) r2) with
      | none =>
        have hdv1 : rawGet "dimensions" (rawSet "metrics" (.pstr ms) r1) = none :=
          (h1 "dimensions").trans hdv
        exact Or.inl ⟨by simp [buildRaw, hmv1, hj, hdv1],
          by simp [buildRaw, hmv, hj, hdv]⟩
      | some dv =>
        have hdv1 : rawGet "dimensions" (rawSet "metrics" (.pstr ms) r1) = some dv :=
          (h1 "dimensions").trans hdv
        cases hdl : pyLen dv with
        | none =>
          exact Or.inl ⟨by simp [buildRaw, hmv1, hj, hdv1, hdl],
            by simp [buildRaw, hmv, hj, hdv, hdl]⟩
        | some dl =>
          by_cases hz : dl = 0
          · subst hz
            refine Or.inr ⟨_, _,
              (by simp [buildRaw, hmv1, hj, hdv1, hdl] :
                buildRaw r1 = some (rawSet "dimensions" .pnone
                  (rawSet "metrics" (.pstr ms) r1))),
              (by simp [buildRaw, hmv, hj, hdv, hdl] :
                buildRaw r2 = some (rawSet "dimensions" .pnone
                  (rawSet "metrics" (.pstr ms) r2))),
              NodupKeys_rawSet _ _ _ hnd1', NodupKeys_rawSet _ _ _ hnd2', ?_⟩
            intro k
            simp only [rawGet_rawSet, h k]
          · cases hjd : joinVal "," dv with
            | none =>
              exact Or.inl ⟨by simp [buildRaw, hmv1, hj, hdv1, hdl, hz, hjd],
                by simp [buildRaw, hmv, hj, hdv, hdl, hz, hjd]⟩
            | some ds =>
              refine Or.inr ⟨_, _,
                (by simp [buildRaw, hmv1, hj, hdv1, hdl, hz, hjd] :
                  buildRaw r1 = some (rawSet "dimensions" (.pstr ds)
                    (rawSet "metrics" (.pstr ms) r1))),
                (by simp [buildRaw, hmv, hj, hdv, hdl, hz, hjd] :
                  buildRaw r2 = some (rawSet "dimensions" (.pstr ds)
                    (rawSet "metrics" (.pstr ms) r2))),
                NodupKeys_rawSet _ _ _ hnd1', NodupKeys_rawSet _ _ _ hnd2', ?_⟩
              intro k
              simp only [rawGet_rawSet, h k]

theorem signatureOf_congr (hash : List Char → List Char) (r1 r2 : Raw)
    (hnd1 : NodupKeys r1) (hnd2 : NodupKeys r2)
    (h : ∀ k, rawGet k r1 = rawGet k r2) :
    signatureOf hash r1 = signatureOf hash r2 := by
  unfold signatureOf
  rcases buildRaw_congr r1 r2 hnd1 hnd2 h with ⟨h1, h2⟩ | ⟨b1, b2, h1, h2, hb1, hb2, hbk⟩
  · rw [h1, h2]
  · rw [h1, h2]
    have heq := sortByKey_eq_of_rawGet_eq b1 b2 hb1 hb2 hbk
    simp [heq]

/- ## Injectivity of the canonical serialization -/

theorem stringData_inj (s t : String) (h : s.data = t.data) : s = t := by
  cases s
  cases t
  simp_all

theorem digitC_inj (d1 d2 : Nat) (h1 : d1 < 10) (h2 : d2 < 10)
    (h : digitC d1 = digitC d2) : d1 = d2 := by
  interval_cases d1 <;> interval_cases d2 <;> revert h <;> decide

theorem digitC_bound (d : Nat) (h : d < 10) :
    48 ≤ (digitC d).toNat ∧ (digitC d).toNat ≤ 57 := by
  interval_cases d <;> decide

theorem mapDigitC_inj : ∀ l1 l2 : List Nat, (∀ x ∈ l1, x < 10) → (∀ x ∈ l2, x < 10) →
    l1.map digitC = l2.map digitC → l1 = l2 := by
  intro l1
  induction l1 with
  | nil =>
    intro l2 _ _ h
    cases l2 with
    | nil => rfl
    | cons y ys => simp at h
  | cons x xs ih =>
    intro l2 hb1 hb2 h
    cases l2 with
    | nil => simp at h
    | cons y ys =>
      simp only [List.map_cons, List.cons.injEq] at h
      have hx := hb1 x (List.mem_cons_self _ _)
      have hy := hb2 y (List.mem_cons_self _ _)
      rw [digitC_inj x y hx hy h.1,
        ih ys (fun a ha => hb1 a (List.mem_cons_of_mem _ ha))
          (fun a ha => hb2 a (List.mem_cons_of_mem _ ha)) h.2]

theorem natCharsGo_eq : ∀ (fuel n : Nat) (acc : List Char), n ≤ fuel →
    natCharsGo acc n fuel = ((Nat.digits 10 n).reverse.map digitC) ++ acc := by
  intro fuel
  induction fuel with
  | zero =>
    intro n acc h
    have hn : n = 0 := by omega
    subst hn
    simp [natCharsGo]
  | succ f ih =>
    intro n acc h
    by_cases hn : n = 0
    · subst hn
      simp [natCharsGo]
    · rw [natCharsGo, if_neg hn]
      have hdiv : n / 10 ≤ f := by
        have := Nat.div_lt_self (Nat.pos_of_ne_zero hn) (by norm_num : 1 < 10)
        omega
      rw [ih (n / 10) (digitC (n % 10) :: acc) hdiv]
      rw [Nat.digits_def' (by norm_num : (1 : Nat) < 10) (Nat.pos_of_ne_zero hn)]
      simp [List.reverse_cons, List.map_append, List.append_assoc]

theorem natChars_eq (n : Nat) :
    natChars n = if n = 0 then ['0'] else (Nat.digits 10 n).reverse.map digitC := by
  by_cases hn : n = 0
  · subst hn; rfl
  · rw [natChars, if_neg hn, if_neg hn, natCharsGo_eq n n [] (le_refl n)]
    simp

theorem natChars_nonzero_aux (n : Nat) (hn : n ≠ 0)
    (h : (Nat.digits 10 n).reverse.map digitC = ['0']) : False := by
  cases hrev : (Nat.digits 10 n).reverse with
  | nil =>
    rw [hrev] at h
    simp at h
  | cons d t =>
    rw [hrev] at h
    simp only [List.map_cons, List.cons.injEq] at h
    have ht : t = [] := List.map_eq_nil_iff.mp h.2
    subst ht
    have hd : d ∈ Nat.digits 10 n := by
      rw [← List.mem_reverse, hrev]
      exact List.mem_cons_self _ _
    have hlt := Nat.digits_lt_base (by norm_num) hd
    have hd0 : d = 0 := digitC_inj d 0 hlt (by norm_num) (by rw [h.1]; rfl)
    subst hd0
    have hdig : Nat.digits 10 n = [0] := by
      have := congrArg List.reverse hrev
      simpa using this
    have := Nat.ofDigits_digits 10 n
    rw [hdig] at this
    simp [Nat.ofDigits] at this
    exact hn this.symm

theorem natChars_inj (m n : Nat) (h : natChars m = natChars n) : m = n := by
  by_cases hm : m = 0 <;> by_cases hn : n = 0
  · rw [hm, hn]
  · subst hm
    rw [natChars_eq, natChars_eq, if_pos rfl, if_neg hn] at h
    exact absurd h.symm (fun hh => natChars_nonzero_aux n hn hh)
  · subst hn
    rw [natChars_eq, natChars_eq, if_pos rfl, if_neg hm] at h
    exact absurd h (fun hh => natChars_nonzero_aux m hm hh)
  · rw [natChars_eq, natChars_eq, if_neg hm, if_neg hn] at h
    have hb1 : ∀ x ∈ (Nat.digits 10 m).reverse, x < 10 := by
      intro x hx
      exact Nat.digits_lt_base (by norm_num) (List.mem_reverse.mp hx)
    have hb2 : ∀ x ∈ (Nat.digits 10 n).reverse, x < 10 := by
      intro x hx
      exact Nat.digits_lt_base (by norm_num) (List.mem_reverse.mp hx)
    have hrev := mapDigitC_inj _ _ hb1 hb2 h
    have hdig : Nat.digits 10 m = Nat.digits 10 n := by
      have := congrArg List.reverse hrev
      simpa using this
    have h1 := Nat.ofDigits_digits 10 m
    have h2 := Nat.ofDigits_digits 10 n
    rw [← h1, ← h2, hdig]

theorem natChars_head (n : Nat) :
    ∃ c t, natChars n = c :: t ∧ 48 ≤ c.toNat ∧ c.toNat ≤ 57 := by
  by_cases hn : n = 0
  · subst hn
    exact ⟨'0', [], rfl, by decide, by decide⟩
  · rw [natChars_eq, if_neg hn]
    cases hrev : (Nat.digits 10 n).reverse with
    | nil =>
      exfalso
      have := congrArg List.reverse hrev
      simp at this
      exact (Nat.digits_ne_nil_iff_ne_zero.mpr hn) this
    | cons d t =>
      have hd : d ∈ Nat.digits 10 n := by
        rw [← List.mem_reverse, hrev]
        exact List.mem_cons_self _ _
      have hlt := Nat.digits_lt_base (by norm_num) hd
      exact ⟨digitC d, t.map digitC, by simp, (digitC_bound d hlt).1, (digitC_bound d hlt).2⟩

theorem intChars_head (i : Int) :
    ∃ c t, intChars i = c :: t ∧ (c.toNat = 45 ∨ (48 ≤ c.toNat ∧ c.toNat ≤ 57)) := by
  unfold intChars
  by_cases hi : i < 0
  · rw [if_pos hi]
    exact ⟨'-', natChars i.natAbs, rfl, Or.inl (by decide)⟩
  · rw [if_neg hi]
    obtain ⟨c, t, hc, hlo, hhi⟩ := natChars_head i.toNat
    exact ⟨c, t, hc, Or.inr ⟨hlo, hhi⟩⟩

theorem intChars_inj (i j : Int) (h : intChars i = intChars j) : i = j := by
  unfold intChars at h
  by_cases hi : i < 0 <;> by_cases hj : j < 0
  · rw [if_pos hi, if_pos hj] at h
    simp only [List.cons.injEq] at h
    have := natChars_inj _ _ h.2
    omega
  · rw [if_pos hi, if_neg hj] at h
    obtain ⟨c, t, hc, hlo, hhi⟩ := natChars_head j.toNat
    rw [hc] at h
    simp only [List.cons.injEq] at h
    rw [← h.1] at hlo
    exact absurd hlo (by decide)
  · rw [if_neg hi, if_pos hj] at h
    obtain ⟨c, t, hc, hlo, hhi⟩ := natChars_head i.toNat
    rw [hc] at h
    simp only [List.cons.injEq] at h
    rw [h.1] at hlo
    exact absurd hlo (by decide)
  · rw [if_neg hi, if_neg hj] at h
    have := natChars_inj _ _ h
    omega

theorem escStr_nil : escStr [] = [] := rfl

theorem escStr_cons (c : Char) (t : List Char) :
    escStr (c :: t) = escChar c ++ escStr t := by
  simp [escStr]

theorem escChar_ne_nil (c : Char) : escChar c ≠ [] := by
  unfold escChar
  by_cases h : c = '"' ∨ c = '\\' <;> simp [h]

theorem escStr_inj : ∀ s t : List Char, escStr s = escStr t → s = t := by
  intro s
  induction s with
  | nil =>
    intro t h
    cases t with
    | nil => rfl
    | cons d ds =>
      rw [escStr_nil, escStr_cons] at h
      exact absurd (List.append_eq_nil.mp h.symm).1 (escChar_ne_nil d)
  | cons c cs ih =>
    intro t h
    cases t with
    | nil =>
      rw [escStr_nil, escStr_cons] at h
      exact absurd (List.append_eq_nil.mp h).1 (escChar_ne_nil c)
    | cons d ds =>
      rw [escStr_cons, escStr_cons] at h
      by_cases hc : c = '"' ∨ c = '\\' <;> by_cases hd : d = '"' ∨ d = '\\'
      · rw [escChar, if_pos hc, escChar, if_pos hd] at h
        simp only [List.cons_append, List.nil_append, List.cons.injEq] at h
        rw [h.2.1, ih ds h.2.2]
      · rw [escChar, if_pos hc, escChar, if_neg hd] at h
        simp only [List.cons_append, List.nil_append, List.cons.injEq] at h
        exact absurd (Or.inr h.1.symm) hd
      · rw [escChar, if_neg hc, escChar, if_pos hd] at h
        simp only [List.cons_append, List.nil_append, List.cons.injEq] at h
        exact absurd (Or.inr h.1) hc
      · rw [escChar, if_neg hc, escChar, if_neg hd] at h
        simp only [List.cons_append, List.nil_append, List.cons.injEq] at h
        rw [h.1, ih ds h.2]

theorem jsonStringC_inj (s t : List Char) (h : jsonStringC s = jsonStringC t) : s = t := by
  unfold jsonStringC at h
  simp only [List.cons.injEq, true_and] at h
  exact escStr_inj s t (List.append_cancel_right h)

theorem interc_cons_ne_nil (sep x : List Char) (l : List (List Char)) (h : l ≠ []) :
    interc sep (x :: l) = x ++ sep ++ interc sep l := by
  cases l with
  | nil => exact absurd rfl h
  | cons y t => rfl

theorem interc_inj_at (sep : List Char) :
    ∀ (xs : List (List Char)) (p q : List Char) (zs : List (List Char)),
      interc sep (xs ++ p :: zs) = interc sep (xs ++ q :: zs) → p = q := by
  intro xs
  induction xs with
  | nil =>
    intro p q zs h
    cases zs with
    | nil => simpa [interc] using h
    | cons z zs' =>
      simp only [List.nil_append] at h
      rw [interc_cons_ne_nil sep p (z :: zs') (by simp),
        interc_cons_ne_nil sep q (z :: zs') (by simp)] at h
      exact List.append_cancel_right (List.append_cancel_right h)
  | cons x xs' ih =>
    intro p q zs h
    simp only [List.cons_append] at h
    rw [interc_cons_ne_nil sep x (xs' ++ p :: zs) (by simp),
      interc_cons_ne_nil sep x (xs' ++ q :: zs) (by simp)] at h
    exact ih p q zs (List.append_cancel_left h)

theorem serVal_inj_scalar (v w : PyVal) (hv : v.isScalar = true) (hw : w.isScalar = true)
    (h : serVal v = serVal w) : v = w := by
  cases v with
  | pstr s =>
    cases w with
    | pstr t =>
      rw [stringData_inj s t (jsonStringC_inj _ _ h)]
    | pint j =>
      exfalso
      obtain ⟨c, t, hc, hd⟩ := intChars_head j
      rw [serVal, serVal, hc] at h
      simp only [jsonStringC, List.cons.injEq] at h
      have := congrArg Char.toNat h.1
      revert hd
      rw [← this]
      decide
    | plist _ => simp [PyVal.isScalar] at hw
    | pnone =>
      exfalso
      rw [serVal, serVal] at h
      simp only [jsonStringC, List.cons.injEq] at h
      exact absurd (congrArg Char.toNat h.1) (by decide)
  | pint i =>
    cases w with
    | pstr t =>
      exfalso
      obtain ⟨c, s, hc, hd⟩ := intChars_head i
      rw [serVal, serVal, hc] at h
      simp only [jsonStringC, List.cons.injEq] at h
      have := congrArg Char.toNat h.1
      revert hd
      rw [this]
      decide
    | pint j => rw [intChars_inj i j h]
    | plist _ => simp [PyVal.isScalar] at hw
    | pnone =>
      exfalso
      obtain ⟨c, s, hc, hd⟩ := intChars_head i
      rw [serVal, serVal, hc] at h
      simp only [List.cons.injEq] at h
      have := congrArg Char.toNat h.1
      revert hd
      rw [this]
      decide
  | plist _ => simp [PyVal.isScalar] at hv
  | pnone =>
    cases w with
    | pstr t =>
      exfalso
      rw [serVal, serVal] at h
      simp only [jsonStringC, List.cons.injEq] at h
      exact absurd (congrArg Char.toNat h.1) (by decide)
    | pint j =>
      exfalso
      obtain ⟨c, s, hc, hd⟩ := intChars_head j
      rw [serVal, serVal, hc] at h
      simp only [List.cons.injEq] at h
      have := congrArg Char.toNat h.1
      revert hd
      rw [← this]
      decide
    | plist _ => simp [PyVal.isScalar] at hw
    | pnone => rfl

theorem serPair_inj_val (k : String) (v w : PyVal) (h : serPair (k, v) = serPair (k, w)) :
    serVal v = serVal w := by
  unfold serPair at h
  simp only [List.cons.injEq, true_and] at h
  exact List.append_cancel_left (List.append_cancel_right h)

theorem jsonChars_ne (A B : Raw) (k : String) (v w : PyVal)
    (hv : v.isScalar = true) (hw : w.isScalar = true) (hne : v ≠ w) :
    jsonChars (A ++ (k, v) :: B) ≠ jsonChars (A ++ (k, w) :: B) := by
  intro h
  apply hne
  unfold jsonChars at h
  simp only [List.cons.injEq, true_and] at h
  have h1 := List.append_cancel_right h
  rw [List.map_append, List.map_append, List.map_cons, List.map_cons] at h1
  have h2 := interc_inj_at [',', ' '] (A.map serPair) _ _ (B.map serPair) h1
  exact serVal_inj_scalar v w hv hw (serPair_inj_val k v w h2)

/-- C3: the signature is a deterministic function of the wire-parameter
mapping: two queries whose raw dictionaries hold the same key/value
mapping (in any insertion order, i.e. built through any order of builder
calls) produce identical signatures, for any hash; and two queries whose
canonicalized wire parameters agree except for the value of one single
key (scalar values, as all built wire parameters are) produce different
signatures, with the external SHA-1 modelled as an injective hash of the
serialized canonical form. -/
theorem C3_signature_determinism (hash : List Char → List Char)
    (hinj : Function.Injective hash) :
    (∀ r1 r2 : Raw, NodupKeys r1 → NodupKeys r2 →
      (∀ k, rawGet k r1 = rawGet k r2) →
      signatureOf hash r1 = signatureOf hash r2) ∧
    (∀ (r1 r2 b1 b2 A B : Raw) (k : String) (v w : PyVal),
      buildRaw r1 = some b1 → buildRaw r2 = some b2 →
      sortByKey b1 = A ++ (k, v) :: B → sortByKey b2 = A ++ (k, w) :: B →
      v.isScalar = true → w.isScalar = true → v ≠ w →
      signatureOf hash r1 ≠ signatureOf hash r2) := by
  constructor
  · intro r1 r2 hnd1 hnd2 h
    exact signatureOf_congr hash r1 r2 hnd1 hnd2 h
  · intro r1 r2 b1 b2 A B k v w hb1 hb2 hs1 hs2 hv hw hne h
    unfold signatureOf at h
    rw [hb1, hb2] at h
    simp only [Option.map_some', Option.some.injEq] at h
    have h1 := hinj h
    rw [hs1, hs2] at h1
    exact jsonChars_ne A B k v w hv hw hne h1

/-- C3 witness: determinism evaluated through the theorem on two
insertion orders of the same parameters, and signature distinctness on
two queries differing only in their start date, with the identity as the
(injective) hash. -/
theorem C3_signature_determinism_witness :
    signatureOf (fun x => x)
      [("metrics", .plist ["ga:pageviews"]), ("dimensions", .plist []),
        ("ids", .pstr "ga:123")] =
    signatureOf (fun x => x)
      [("ids", .pstr "ga:123"), ("dimensions", .plist []),
        ("metrics", .plist ["ga:pageviews"])] ∧
    signatureOf (fun x => x)
      [("ids", .pstr "ga:123"), ("metrics", .plist ["ga:pageviews"]),
        ("dimensions", .plist []), ("start_date", .pstr "2020-01-01")] ≠
    signatureOf (fun x => x)
      [("ids", .pstr "ga:123"), ("metrics", .plist ["ga:pageviews"]),
        ("dimensions", .plist []), ("start_date", .pstr "2020-01-02")] := by
  constructor
  · refine (C3_signature_determinism (fun x => x) (fun a b h => h)).1 _ _
      (by decide) (by decide) ?_
    intro k
    by_cases h1 : k = "metrics"
    · subst h1; rfl
    · by_cases h2 : k = "dimensions"
      · subst h2; rfl
      · by_cases h3 : k = "ids"
        · subst h3; rfl
        · simp [rawGet, h1, h2, h3]
  · exact (C3_signature_determinism (fun x => x) (fun a b h => h)).2
      _ _
      [("ids", .pstr "ga:123"), ("metrics", .pstr "ga:pageviews"),
        ("dimensions", .pnone), ("start_date", .pstr "2020-01-01")]
      [("ids", .pstr "ga:123"), ("metrics", .pstr "ga:pageviews"),
        ("dimensions", .pnone), ("start_date", .pstr "2020-01-02")]
      [("dimensions", .pnone), ("ids", .pstr "ga:123"),
        ("metrics", .pstr "ga:pageviews")]
      []
      "start_date" (.pstr "2020-01-01") (.pstr "2020-01-02")
      rfl rfl rfl rfl rfl rfl (by decide)
